import Mathlib

/-!
# Verification of `SimpleCoarseGrainedProfilers` (src/Profiler.h)

Shallow embedding of the `SCGP::Profiler` class from `src/Profiler.h`.

Modelling choices:
* The sample pool (`Sample* SamplePool` with `SampleCount` valid entries) is
  modelled as a `List Sample` holding exactly the written entries, in index
  order; `SampleCount` is its length.  `SampleCapacity` is kept as an explicit
  field because the growth branch of `BeginSample` reads and writes it.
  `memcpy` into the reallocated pool preserves all written entries, so growth
  only changes the capacity field in the model.
* `std::chrono` clock readings (`ElapsedNanoseconds`) are nondeterministic
  inputs; every operation takes the clock value(s) it would read as explicit
  `Nat` arguments (a `uint64_t` nanosecond count in the source).
* `Sample::EndNanoseconds` is indeterminate (uninitialized memory) until
  `EndSample` writes it, so it is modelled as `Option Nat`; `BeginSample`
  leaves it `none` for the opened sample and the growth branch writes both
  timestamps of the synthetic marker at creation.
* `EndSample` performs the unchecked access `SamplePool[CurrentSample]`;
  the model returns `none` exactly when that access would be out of bounds
  (in particular when `CurrentSample` is the sentinel `-1`).
* `ToChromeTracingEvents` formats each sample with `FmtString` into a string;
  the model produces the structured record holding the formatted fields
  (`pid`, `tid`, `ts`, `dur`, `ph`, `name`, `args.ms`), with the `double`
  divisions `/1000.0` and `/1e6` carried out in `ℚ`, and the `uint64_t`
  subtraction `EndNanoseconds - BeginNanoseconds` taken modulo `2^64`.
-/

namespace SCGP

/-- `Profiler::Sample` (src/Profiler.h lines 39-45). -/
structure Sample where
  Parent : Int
  BeginNanoseconds : Nat
  EndNanoseconds : Option Nat
  Name : String
  deriving Repr, DecidableEq

/-- The recorder state of class `Profiler` (src/Profiler.h lines 62-66).
`ClockStart` is absorbed into the explicit clock arguments of the
operations; `SampleCount` is the length of the modelled pool list. -/
structure Profiler where
  SamplePool : List Sample
  CurrentSample : Int
  SampleCapacity : Nat
  deriving Repr, DecidableEq

/-- `SampleCount` of the recorder: the number of written pool entries. -/
def Profiler.SampleCount (p : Profiler) : Nat := p.SamplePool.length

/-- The constructor `Profiler(int initialCapacity = 1 << 20)`
(src/Profiler.h lines 71-78): clamps the capacity to a minimum of 2,
starts with no samples and `CurrentSample = -1`. -/
def Profiler.init (initialCapacity : Int) : Profiler :=
  { SamplePool := []
    CurrentSample := -1
    SampleCapacity := if initialCapacity < 2 then 2 else initialCapacity.toNat }

/-- Name of the synthetic sample recorded by the pool-growth branch
(src/Profiler.h line 106). -/
def reallocName : String := "SCGP.Profiler.ReallocateSamplePool"

/-- `Profiler::BeginSample(const char* name)` (src/Profiler.h lines 83-108).
`t` is the clock value read for the opened sample; `tg1`, `tg2` are the
clock values the growth branch would read before and after reallocation.
The opened sample gets `Parent = CurrentSample` and `CurrentSample` becomes
its index (the old `SampleCount`).  If afterwards `SampleCount + 1 >=
SampleCapacity`, the pool is reallocated at double capacity and one synthetic
sample is appended whose `Parent` is the (already updated) `CurrentSample`
and whose two timestamps are both written at creation. -/
def Profiler.BeginSample (p : Profiler) (name : String) (t tg1 tg2 : Nat) :
    Profiler :=
  let sample : Sample :=
    { Parent := p.CurrentSample
      BeginNanoseconds := t
      EndNanoseconds := none
      Name := name }
  let p1 : Profiler :=
    { SamplePool := p.SamplePool ++ [sample]
      CurrentSample := (p.SamplePool.length : Int)
      SampleCapacity := p.SampleCapacity }
  if p1.SamplePool.length + 1 ≥ p1.SampleCapacity then
    let marker : Sample :=
      { Parent := p1.CurrentSample
        BeginNanoseconds := tg1
        EndNanoseconds := some tg2
        Name := reallocName }
    { SamplePool := p1.SamplePool ++ [marker]
      CurrentSample := p1.CurrentSample
      SampleCapacity := p1.SampleCapacity * 2 }
  else
    p1

/-- `Profiler::EndSample()` (src/Profiler.h lines 110-116): writes the clock
value `t` into `EndNanoseconds` of the sample at index `CurrentSample` and
moves `CurrentSample` to that sample's `Parent`.  The source performs the
access `SamplePool[CurrentSample]` without any check; the model returns
`none` exactly when that access is out of bounds (e.g. `CurrentSample = -1`,
no open sample). -/
def Profiler.EndSample (p : Profiler) (t : Nat) : Option Profiler :=
  if p.CurrentSample < 0 then none
  else
    match p.SamplePool.get? p.CurrentSample.toNat with
    | none => none
    | some s =>
        some { SamplePool :=
                 p.SamplePool.set p.CurrentSample.toNat
                   { s with EndNanoseconds := some t }
               CurrentSample := s.Parent
               SampleCapacity := p.SampleCapacity }

/-- One structured Chrome-tracing event, holding the values that
`ToChromeTracingEvents` formats into its event string
(src/Profiler.h line 195). -/
structure ChromeTracingEvent where
  pid : Nat
  tid : Nat
  ts : ℚ
  dur : ℚ
  ph : String
  name : String
  args_ms : ℚ
  deriving Repr, DecidableEq

/-- `uint64_t` subtraction `a - b` with wrap-around modulo `2^64`,
as performed on `EndNanoseconds - BeginNanoseconds` (src/Profiler.h
lines 197 and 199); faithful for operands below `2^64`. -/
def u64sub (a b : Nat) : Nat := (a + 2 ^ 64 - b) % 2 ^ 64

/-- The event record built for one sample by the export loop body
(src/Profiler.h lines 194-199).  Reading `EndNanoseconds` of a still-open
sample reads indeterminate memory in the source; the model reads 0 there
(no claim depends on that value). -/
def chromeEvent (e : Sample) : ChromeTracingEvent :=
  let endNs := e.EndNanoseconds.getD 0
  { pid := 1
    tid := 1
    ts := (e.BeginNanoseconds : ℚ) / 1000
    dur := (u64sub endNs e.BeginNanoseconds : ℚ) / 1000
    ph := "X"
    name := e.Name
    args_ms := (u64sub endNs e.BeginNanoseconds : ℚ) / 1000000 }

/-- The append variant
`ToChromeTracingEvents(const Profiler&, std::vector<std::string>&)`
(src/Profiler.h lines 190-201): pushes one event per recorded sample,
in pool order, onto `appendTo`. -/
def ToChromeTracingEventsAppend (p : Profiler)
    (appendTo : List ChromeTracingEvent) : List ChromeTracingEvent :=
  p.SamplePool.foldl (fun acc e => acc ++ [chromeEvent e]) appendTo

/-- The convenience variant `ToChromeTracingEvents(const Profiler&)`
(src/Profiler.h lines 180-185): appends to a freshly created empty list. -/
def ToChromeTracingEvents (p : Profiler) : List ChromeTracingEvent :=
  ToChromeTracingEventsAppend p []

/-! ## Traces of operations -/

/-- One recorded call on the profiler, with the clock values it reads. -/
inductive Op where
  | beginS (name : String) (t tg1 tg2 : Nat)
  | endS (t : Nat)
  deriving Repr, DecidableEq

/-- Run one call against the recorder state. -/
def runOp (p : Profiler) : Op → Option Profiler
  | .beginS name t tg1 tg2 => some (p.BeginSample name t tg1 tg2)
  | .endS t => p.EndSample t

/-- Run a sequence of calls against the recorder state. -/
def run (p : Profiler) : List Op → Option Profiler
  | [] => some p
  | op :: ops => (runOp p op).bind (fun q => run q ops)

/-! ## Parent chains, call stacks and instrumented runs -/

/-- The `Parent` indices of all recorded samples, in pool order. -/
def parents (p : Profiler) : List Int := p.SamplePool.map Sample.Parent

/-- Number of parent-link steps from the sample at index `i` to a
top-level sample (one whose `Parent` is the sentinel `-1`), bounded by
`fuel`; `none` if the chain leaves the pool or does not reach a top-level
sample within `fuel` steps. -/
def chainSteps (ps : List Int) : Nat → Nat → Option Nat
  | 0, _ => none
  | fuel + 1, i =>
    match ps[i]? with
    | none => none
    | some par =>
        if par = -1 then some 0
        else (chainSteps ps fuel par.toNat).map (· + 1)

/-- `ChainStack ps c s`: `s` lists the open-sample indices from the cursor
`c` down to the outermost one, each linking to the next via its `Parent`
entry in `ps`, with the last one having `Parent = -1`. -/
def ChainStack (ps : List Int) : Int → List Nat → Prop
  | c, [] => c = -1
  | c, i :: s => c = (i : Int) ∧ ∃ par, ps[i]? = some par ∧ ChainStack ps par s

/-- Recorder state instrumented with the ghost call stack of open sample
indices (innermost first) and the ghost list of creation-time nesting
depths, one entry per recorded sample: the number of samples open around
a sample at the moment it was created. -/
structure IState where
  prof : Profiler
  stack : List Nat
  depths : List Nat
  deriving Repr, DecidableEq

/-- Instrumented initial state for `Profiler(initialCapacity)`. -/
def IState.init (initialCapacity : Int) : IState :=
  { prof := Profiler.init initialCapacity, stack := [], depths := [] }

/-- Instrumented step: runs the call on the recorder and updates the ghost
stack and ghost depth list.  A `BeginSample` records depth `stack.length`
for the opened sample and, when the growth branch fires, depth
`stack.length + 1` for the synthetic marker (created while the opened
sample is open).  An `EndSample` pops the ghost stack; it fails when the
stack is empty or the recorder call fails. -/
def istep (σ : IState) : Op → Option IState
  | .beginS name t tg1 tg2 =>
      some { prof := σ.prof.BeginSample name t tg1 tg2
             stack := σ.prof.SampleCount :: σ.stack
             depths := σ.depths ++
               (if σ.prof.SampleCapacity ≤ σ.prof.SampleCount + 2 then
                 [σ.stack.length, σ.stack.length + 1]
                else [σ.stack.length]) }
  | .endS t =>
      match σ.stack, σ.prof.EndSample t with
      | _ :: rest, some q =>
          some { prof := q, stack := rest, depths := σ.depths }
      | _, _ => none

/-- Instrumented run of a sequence of calls. -/
def irun (σ : IState) : List Op → Option IState
  | [] => some σ
  | op :: ops => (istep σ op).bind (fun τ => irun τ ops)

/-- Net nesting depth after a sequence of calls started at depth `d`;
`none` when some `EndSample` occurs at depth 0 (an unmatched end). -/
def nestedFrom : Nat → List Op → Option Nat
  | d, [] => some d
  | d, Op.beginS _ _ _ _ :: ops => nestedFrom (d + 1) ops
  | d, Op.endS _ :: ops =>
      match d with
      | 0 => none
      | d' + 1 => nestedFrom d' ops

/-- A well-nested call sequence: every `BeginSample` matched by a later
`EndSample`, in LIFO order (a balanced bracket sequence). -/
def WellNested (ops : List Op) : Prop := nestedFrom 0 ops = some 0

instance : DecidablePred WellNested := fun ops =>
  inferInstanceAs (Decidable (nestedFrom 0 ops = some 0))

/-! ## Unfolding lemmas for `BeginSample` -/

/-- The sample appended for the caller by `BeginSample`. -/
def openedSample (p : Profiler) (name : String) (t : Nat) : Sample :=
  { Parent := p.CurrentSample
    BeginNanoseconds := t
    EndNanoseconds := none
    Name := name }

/-- The synthetic sample appended by the growth branch of `BeginSample`. -/
def growthMarker (p : Profiler) (tg1 tg2 : Nat) : Sample :=
  { Parent := (p.SampleCount : Int)
    BeginNanoseconds := tg1
    EndNanoseconds := some tg2
    Name := reallocName }

lemma BeginSample_grow_eq (p : Profiler) (name : String) (t tg1 tg2 : Nat)
    (h : p.SampleCapacity ≤ p.SampleCount + 2) :
    p.BeginSample name t tg1 tg2 =
      { SamplePool := p.SamplePool ++ [openedSample p name t, growthMarker p tg1 tg2]
        CurrentSample := (p.SampleCount : Int)
        SampleCapacity := p.SampleCapacity * 2 } := by
  simp only [Profiler.SampleCount] at h
  simp [Profiler.BeginSample, openedSample, growthMarker, Profiler.SampleCount, h]

lemma BeginSample_nogrow_eq (p : Profiler) (name : String) (t tg1 tg2 : Nat)
    (h : p.SampleCount + 2 < p.SampleCapacity) :
    p.BeginSample name t tg1 tg2 =
      { SamplePool := p.SamplePool ++ [openedSample p name t]
        CurrentSample := (p.SampleCount : Int)
        SampleCapacity := p.SampleCapacity } := by
  simp only [Profiler.SampleCount] at h
  simp [Profiler.BeginSample, openedSample, Profiler.SampleCount]
  omega

/-! ## Chain lemmas -/

lemma chainSteps_append (ps qs : List Int) (fuel i d : Nat)
    (h : chainSteps ps fuel i = some d) :
    chainSteps (ps ++ qs) fuel i = some d := by
  induction fuel generalizing i d with
  | zero => simp [chainSteps] at h
  | succ fuel ih =>
    cases hg : ps[i]? with
    | none => simp [chainSteps, hg] at h
    | some par =>
      have hi : i < ps.length := (List.getElem?_eq_some_iff.mp hg).1
      simp only [chainSteps, hg] at h
      simp only [chainSteps, List.getElem?_append_left hi, hg]
      by_cases hpar : par = -1
      · simpa [hpar] using h
      · rw [if_neg hpar] at h ⊢
        obtain ⟨d', hd', rfl⟩ := Option.map_eq_some'.mp h
        rw [ih _ _ hd']
        rfl

lemma chainSteps_mono (ps : List Int) (fuel fuel' i d : Nat)
    (hle : fuel ≤ fuel') (h : chainSteps ps fuel i = some d) :
    chainSteps ps fuel' i = some d := by
  induction fuel generalizing fuel' i d with
  | zero => simp [chainSteps] at h
  | succ fuel ih =>
    obtain ⟨f', rfl⟩ : ∃ f', fuel' = f' + 1 :=
      ⟨fuel' - 1, by omega⟩
    cases hg : ps[i]? with
    | none => simp [chainSteps, hg] at h
    | some par =>
      simp only [chainSteps, hg] at h ⊢
      by_cases hpar : par = -1
      · simpa [hpar] using h
      · rw [if_neg hpar] at h ⊢
        obtain ⟨d', hd', rfl⟩ := Option.map_eq_some'.mp h
        rw [ih _ _ _ (by omega) hd']
        rfl

lemma chainStack_append (ps qs : List Int) (c : Int) (s : List Nat)
    (h : ChainStack ps c s) : ChainStack (ps ++ qs) c s := by
  induction s generalizing c with
  | nil => exact h
  | cons i s ih =>
    obtain ⟨rfl, par, hpar, htail⟩ := h
    refine ⟨rfl, par, ?_, ih par htail⟩
    rw [List.getElem?_append_left (List.getElem?_eq_some_iff.mp hpar).1]
    exact hpar

lemma chainStack_nil (ps : List Int) (c : Int) (h : ChainStack ps c []) :
    c = -1 := h

lemma chainStack_steps (ps : List Int) (s : List Nat) (c : Int) (i : Nat)
    (h : ChainStack ps c (i :: s)) (fuel : Nat) (hf : s.length < fuel) :
    chainSteps ps fuel i = some s.length := by
  induction s generalizing c i fuel with
  | nil =>
    obtain ⟨rfl, par, hpar, hp⟩ := h
    obtain ⟨f, rfl⟩ : ∃ f, fuel = f + 1 := ⟨fuel - 1, by omega⟩
    simp [chainSteps, hpar, chainStack_nil ps par hp]
  | cons j s ih =>
    obtain ⟨rfl, par, hpar, hp⟩ := h
    have hj : par = (j : Int) := hp.1
    subst hj
    obtain ⟨f, rfl⟩ : ∃ f, fuel = f + 1 := ⟨fuel - 1, by omega⟩
    have hne : ((j : Int)) ≠ -1 := by intro hh; omega
    simp only [chainSteps, hpar, if_neg hne, Int.toNat_natCast]
    rw [ih _ j hp f (by simp at hf; omega)]
    simp

/-! ## Preservation lemmas for runs -/

lemma parents_begin_grow (p : Profiler) (name : String) (t tg1 tg2 : Nat)
    (h : p.SampleCapacity ≤ p.SampleCount + 2) :
    parents (p.BeginSample name t tg1 tg2) =
      parents p ++ [p.CurrentSample, (p.SampleCount : Int)] := by
  rw [BeginSample_grow_eq p name t tg1 tg2 h]
  simp [parents, openedSample, growthMarker]

lemma parents_begin_nogrow (p : Profiler) (name : String) (t tg1 tg2 : Nat)
    (h : p.SampleCount + 2 < p.SampleCapacity) :
    parents (p.BeginSample name t tg1 tg2) = parents p ++ [p.CurrentSample] := by
  rw [BeginSample_nogrow_eq p name t tg1 tg2 h]
  simp [parents, openedSample]

lemma parents_length (p : Profiler) : (parents p).length = p.SampleCount := by
  simp [parents, Profiler.SampleCount]

lemma chainStack_begin (p : Profiler) (name : String) (t tg1 tg2 : Nat)
    (s : List Nat) (hcs : ChainStack (parents p) p.CurrentSample s) :
    ChainStack (parents (p.BeginSample name t tg1 tg2))
      (p.BeginSample name t tg1 tg2).CurrentSample (p.SampleCount :: s) := by
  by_cases h : p.SampleCapacity ≤ p.SampleCount + 2
  · rw [parents_begin_grow p name t tg1 tg2 h, BeginSample_grow_eq p name t tg1 tg2 h]
    refine ⟨rfl, p.CurrentSample, ?_, chainStack_append _ _ _ _ hcs⟩
    rw [List.getElem?_append_right (le_of_eq (parents_length p)), parents_length]
    simp
  · rw [parents_begin_nogrow p name t tg1 tg2 (by omega),
      BeginSample_nogrow_eq p name t tg1 tg2 (by omega)]
    refine ⟨rfl, p.CurrentSample, ?_, chainStack_append _ _ _ _ hcs⟩
    rw [List.getElem?_append_right (le_of_eq (parents_length p)), parents_length]
    simp

lemma chainStack_end (p : Profiler) (t : Nat) (i : Nat) (s : List Nat)
    (hcs : ChainStack (parents p) p.CurrentSample (i :: s)) :
    ∃ q, p.EndSample t = some q ∧ parents q = parents p ∧
      q.SampleCount = p.SampleCount ∧ q.SampleCapacity = p.SampleCapacity ∧
      ChainStack (parents q) q.CurrentSample s := by
  obtain ⟨hcur, par, hpar, htail⟩ := hcs
  obtain ⟨smp, hsmp, hsp⟩ :
      ∃ smp, p.SamplePool[i]? = some smp ∧ smp.Parent = par := by
    rw [parents, List.getElem?_map] at hpar
    cases hg : p.SamplePool[i]? with
    | none => rw [hg] at hpar; exact absurd hpar (by simp)
    | some smp => rw [hg] at hpar; exact ⟨smp, rfl, by simpa using hpar⟩
  have hsmp' : p.SamplePool.get? i = some smp := by
    rw [List.get?_eq_getElem?]; exact hsmp
  have hilt : i < p.SamplePool.length := (List.getElem?_eq_some_iff.mp hsmp).1
  have higet : p.SamplePool[i] = smp := (List.getElem?_eq_some_iff.mp hsmp).2
  have htoNat : p.CurrentSample.toNat = i := by
    rw [hcur]; exact Int.toNat_natCast i
  have hparents :
      parents { SamplePool := p.SamplePool.set i { smp with EndNanoseconds := some t },
                CurrentSample := smp.Parent,
                SampleCapacity := p.SampleCapacity } = parents p := by
    simp only [parents]
    refine List.ext_get? fun n => ?_
    by_cases hn : n = i
    · subst hn
      simp [List.get?_eq_getElem?, List.getElem?_map, List.getElem?_set,
        hsmp, hsp, hilt, higet]
    · simp [List.get?_eq_getElem?, List.getElem?_map, List.getElem?_set,
        Ne.symm hn, hn]
  refine ⟨_, ?_, hparents, ?_, rfl, ?_⟩
  · rw [Profiler.EndSample, if_neg (by rw [hcur]; omega), htoNat, hsmp']
  · simp [Profiler.SampleCount]
  · rw [hparents]
    show ChainStack (parents p) smp.Parent s
    rw [hsp]
    exact htail

lemma beginSample_currentSample (p : Profiler) (name : String)
    (t tg1 tg2 : Nat) :
    (p.BeginSample name t tg1 tg2).CurrentSample = (p.SampleCount : Int) := by
  by_cases h : p.SampleCapacity ≤ p.SampleCount + 2
  · rw [BeginSample_grow_eq p name t tg1 tg2 h]
  · rw [BeginSample_nogrow_eq p name t tg1 tg2 (by omega)]

lemma beginSample_count_grow (p : Profiler) (name : String) (t tg1 tg2 : Nat)
    (h : p.SampleCapacity ≤ p.SampleCount + 2) :
    (p.BeginSample name t tg1 tg2).SampleCount = p.SampleCount + 2 := by
  rw [BeginSample_grow_eq p name t tg1 tg2 h]
  simp [Profiler.SampleCount]

lemma beginSample_count_nogrow (p : Profiler) (name : String) (t tg1 tg2 : Nat)
    (h : p.SampleCount + 2 < p.SampleCapacity) :
    (p.BeginSample name t tg1 tg2).SampleCount = p.SampleCount + 1 := by
  rw [BeginSample_nogrow_eq p name t tg1 tg2 h]
  simp [Profiler.SampleCount]

lemma endSample_counts (p : Profiler) (t : Nat) (q : Profiler)
    (h : p.EndSample t = some q) :
    q.SampleCount = p.SampleCount ∧ q.SampleCapacity = p.SampleCapacity := by
  rw [Profiler.EndSample] at h
  split at h
  · exact absurd h (by simp)
  · cases hg : p.SamplePool.get? p.CurrentSample.toNat with
    | none => rw [hg] at h; exact absurd h (by simp)
    | some s =>
      rw [hg] at h
      obtain rfl := Option.some.inj h
      exact ⟨by simp [Profiler.SampleCount], rfl⟩

/-! ## The run-level invariants -/

lemma run_chainStack (ops : List Op) (p : Profiler) (s : List Nat) (d : Nat)
    (hcs : ChainStack (parents p) p.CurrentSample s)
    (hn : nestedFrom s.length ops = some d) :
    ∃ q s', run p ops = some q ∧
      ChainStack (parents q) q.CurrentSample s' ∧ s'.length = d := by
  induction ops generalizing p s with
  | nil =>
    refine ⟨p, s, rfl, hcs, ?_⟩
    simpa [nestedFrom] using hn
  | cons op ops ih =>
    cases op with
    | beginS name t tg1 tg2 =>
      have hcs' := chainStack_begin p name t tg1 tg2 s hcs
      have hn' : nestedFrom (p.SampleCount :: s).length ops = some d := by
        simpa [nestedFrom] using hn
      obtain ⟨q, s', hrun, h1, h2⟩ := ih _ _ hcs' hn'
      exact ⟨q, s', by simp [run, runOp, hrun], h1, h2⟩
    | endS t =>
      cases s with
      | nil => simp [nestedFrom] at hn
      | cons i s0 =>
        obtain ⟨q1, hend, hpar, hcnt, hcap, hcs1⟩ := chainStack_end p t i s0 hcs
        have hn' : nestedFrom s0.length ops = some d := by
          simpa [nestedFrom] using hn
        obtain ⟨q, s', hrun, h1, h2⟩ := ih q1 s0 hcs1 hn'
        exact ⟨q, s', by simp [run, runOp, hend, hrun], h1, h2⟩

lemma capInv_begin (p : Profiler) (name : String) (t tg1 tg2 : Nat)
    (h : p.SampleCount + 2 ≤ p.SampleCapacity) :
    (p.BeginSample name t tg1 tg2).SampleCount + 2 ≤
      (p.BeginSample name t tg1 tg2).SampleCapacity := by
  by_cases hg : p.SampleCapacity ≤ p.SampleCount + 2
  · rw [beginSample_count_grow p name t tg1 tg2 hg,
      BeginSample_grow_eq p name t tg1 tg2 hg]
    show p.SampleCount + 2 + 2 ≤ p.SampleCapacity * 2
    omega
  · rw [beginSample_count_nogrow p name t tg1 tg2 (by omega),
      BeginSample_nogrow_eq p name t tg1 tg2 (by omega)]
    show p.SampleCount + 1 + 2 ≤ p.SampleCapacity
    omega

lemma run_capInv (ops : List Op) (p q : Profiler)
    (h : p.SampleCount + 2 ≤ p.SampleCapacity) (hrun : run p ops = some q) :
    q.SampleCount + 2 ≤ q.SampleCapacity := by
  induction ops generalizing p with
  | nil =>
    rw [run] at hrun
    obtain rfl := Option.some.inj hrun
    exact h
  | cons op ops ih =>
    rw [run] at hrun
    cases op with
    | beginS name t tg1 tg2 =>
      simp only [runOp, Option.some_bind] at hrun
      exact ih _ (capInv_begin p name t tg1 tg2 h) hrun
    | endS t =>
      cases hend : p.EndSample t with
      | none => simp [runOp, hend] at hrun
      | some r =>
        simp only [runOp, hend, Option.some_bind] at hrun
        obtain ⟨hc, hcap⟩ := endSample_counts p t r hend
        exact ih r (by rw [hc, hcap]; exact h) hrun

/-- The instrumented-run invariant: the ghost depth list has one entry per
recorded sample, the ghost stack is the open-sample chain of the recorder
and is no longer than the pool, and every recorded sample's parent chain
reaches a top-level sample in exactly its recorded creation depth. -/
def IInv (p : Profiler) (stack depths : List Nat) : Prop :=
  depths.length = p.SampleCount ∧
  stack.length ≤ p.SampleCount ∧
  ChainStack (parents p) p.CurrentSample stack ∧
  ∀ i, i < p.SampleCount →
    chainSteps (parents p) p.SampleCount i = depths[i]?

lemma iinv_begin (p : Profiler) (stack depths : List Nat) (name : String)
    (t tg1 tg2 : Nat) (h : IInv p stack depths) :
    IInv (p.BeginSample name t tg1 tg2) (p.SampleCount :: stack)
      (depths ++ (if p.SampleCapacity ≤ p.SampleCount + 2 then
        [stack.length, stack.length + 1] else [stack.length])) := by
  obtain ⟨hlen, hsl, hcs, hsteps⟩ := h
  have hcs' := chainStack_begin p name t tg1 tg2 stack hcs
  by_cases hg : p.SampleCapacity ≤ p.SampleCount + 2
  · have hcount := beginSample_count_grow p name t tg1 tg2 hg
    have hps := parents_begin_grow p name t tg1 tg2 hg
    rw [if_pos hg]
    rw [hps] at hcs'
    refine ⟨?_, ?_, hps ▸ hcs', ?_⟩
    · simp only [List.length_append, List.length_cons, List.length_nil, hcount]
      omega
    · simp only [List.length_cons, hcount]
      omega
    · intro i hi
      rw [hcount] at hi ⊢
      rw [hps]
      rcases Nat.lt_or_ge i p.SampleCount with hlt | hge
      · obtain ⟨v, hv⟩ : ∃ v, depths[i]? = some v := by
          have hb : i < depths.length := by omega
          exact ⟨depths[i], List.getElem?_eq_some_iff.mpr ⟨hb, rfl⟩⟩
        rw [List.getElem?_append_left (show i < depths.length by omega), hv]
        exact chainSteps_mono _ p.SampleCount _ i v (by omega)
          (chainSteps_append _ _ p.SampleCount i v ((hsteps i hlt).trans hv))
      · rcases (by omega : i = p.SampleCount ∨ i = p.SampleCount + 1) with rfl | rfl
        · rw [chainStack_steps _ stack _ _ hcs' _ (by omega)]
          rw [List.getElem?_append_right (show depths.length ≤ p.SampleCount by omega)]
          have h0 : p.SampleCount - depths.length = 0 := by omega
          rw [h0]
          rfl
        · rw [show p.SampleCount + 1 + 1 = (p.SampleCount + 1) + 1 from rfl]
          simp only [chainSteps]
          rw [List.getElem?_append_right
            (show (parents p).length ≤ p.SampleCount + 1 by rw [parents_length]; omega)]
          rw [parents_length]
          have h1 : p.SampleCount + 1 - p.SampleCount = 1 := by omega
          rw [h1]
          have hne : ((p.SampleCount : Int)) ≠ -1 := by intro hh; omega
          show (if (p.SampleCount : Int) = -1 then some 0
            else (chainSteps (parents p ++ [p.CurrentSample, (p.SampleCount : Int)])
              (p.SampleCount + 1) (p.SampleCount : Int).toNat).map (· + 1)) = _
          rw [if_neg hne, Int.toNat_natCast]
          rw [chainStack_steps _ stack _ _ hcs' _ (by omega)]
          rw [List.getElem?_append_right (show depths.length ≤ p.SampleCount + 1 by omega)]
          have h2 : p.SampleCount + 1 - depths.length = 1 := by omega
          rw [h2]
          rfl
  · have hcount := beginSample_count_nogrow p name t tg1 tg2 (by omega)
    have hps := parents_begin_nogrow p name t tg1 tg2 (by omega)
    rw [if_neg hg]
    rw [hps] at hcs'
    refine ⟨?_, ?_, hps ▸ hcs', ?_⟩
    · simp only [List.length_append, List.length_cons, List.length_nil, hcount]
      omega
    · simp only [List.length_cons, hcount]
      omega
    · intro i hi
      rw [hcount] at hi ⊢
      rw [hps]
      rcases Nat.lt_or_ge i p.SampleCount with hlt | hge
      · obtain ⟨v, hv⟩ : ∃ v, depths[i]? = some v := by
          have hb : i < depths.length := by omega
          exact ⟨depths[i], List.getElem?_eq_some_iff.mpr ⟨hb, rfl⟩⟩
        rw [List.getElem?_append_left (show i < depths.length by omega), hv]
        exact chainSteps_mono _ p.SampleCount _ i v (by omega)
          (chainSteps_append _ _ p.SampleCount i v ((hsteps i hlt).trans hv))
      · have hieq : i = p.SampleCount := by omega
        subst hieq
        rw [chainStack_steps _ stack _ _ hcs' _ (by omega)]
        rw [List.getElem?_append_right (show depths.length ≤ p.SampleCount by omega)]
        have h0 : p.SampleCount - depths.length = 0 := by omega
        rw [h0]
        rfl

lemma iinv_end (p : Profiler) (i : Nat) (rest depths : List Nat) (t : Nat)
    (h : IInv p (i :: rest) depths) (q : Profiler)
    (hend : p.EndSample t = some q) : IInv q rest depths := by
  obtain ⟨hlen, hsl, hcs, hsteps⟩ := h
  obtain ⟨q', hend', hpar, hcnt, hcap, hcs1⟩ := chainStack_end p t i rest hcs
  rw [hend'] at hend
  obtain rfl := Option.some.inj hend
  refine ⟨by rw [hcnt]; exact hlen, ?_, hcs1, ?_⟩
  · rw [hcnt]
    simp only [List.length_cons] at hsl
    omega
  · rw [hpar, hcnt]
    exact hsteps

lemma irun_iinv (ops : List Op) (σ τ : IState)
    (h : IInv σ.prof σ.stack σ.depths) (hrun : irun σ ops = some τ) :
    IInv τ.prof τ.stack τ.depths := by
  induction ops generalizing σ with
  | nil =>
    rw [irun] at hrun
    obtain rfl := Option.some.inj hrun
    exact h
  | cons op ops ih =>
    rw [irun] at hrun
    cases op with
    | beginS name t tg1 tg2 =>
      simp only [istep, Option.some_bind] at hrun
      exact ih _ (iinv_begin σ.prof σ.stack σ.depths name t tg1 tg2 h) hrun
    | endS t =>
      cases hs : σ.stack with
      | nil =>
        rw [istep, hs] at hrun
        simp at hrun
      | cons i rest =>
        cases hend : σ.prof.EndSample t with
        | none =>
          rw [istep, hs, hend] at hrun
          simp at hrun
        | some q =>
          rw [istep, hs, hend] at hrun
          simp only [Option.some_bind] at hrun
          exact ih _ (iinv_end σ.prof i rest σ.depths t (hs ▸ h) q hend) hrun

/-! ## Claim theorems about single operations -/

/-- C1 counterexample: on `Profiler(2)` followed by `BeginSample("A")`
(which triggers growth), the synthetic growth-marker sample at index 1 has
`Parent = 0`, the index of the sample being opened — not `-1`, the value
`CurrentSample` held when the triggering sample was opened.  So the marker
is recorded as a child of the opened sample, not as its sibling. -/
theorem growthMarker_parent_sibling_cex :
    ((((Profiler.init 2).BeginSample "A" 0 1 2).SamplePool.get? 1).map
        Sample.Parent = some 0) ∧
      (Profiler.init 2).CurrentSample = -1 ∧ (0 : Int) ≠ -1 := by
  decide

/-- C1 (amended): when `BeginSample` triggers pool growth, the synthetic
growth-marker sample is appended as a child of the sample being opened:
its `Parent` is the index of the triggering sample (the value of
`CurrentSample` after it was updated), not the triggering sample's own
parent. -/
theorem growthMarker_parent_is_opened_index (p : Profiler) (name : String)
    (t tg1 tg2 : Nat) (h : p.SampleCapacity ≤ p.SampleCount + 2) :
    (((p.BeginSample name t tg1 tg2).SamplePool.get? (p.SampleCount + 1)).map
        Sample.Parent = some (p.SampleCount : Int)) ∧
      (p.BeginSample name t tg1 tg2).CurrentSample = (p.SampleCount : Int) := by
  rw [BeginSample_grow_eq p name t tg1 tg2 h]
  refine ⟨?_, rfl⟩
  rw [List.get?_append_right (by simp [Profiler.SampleCount])]
  simp [Profiler.SampleCount, growthMarker]

/-- Witness for C1 (amended) at `Profiler(2)`, `BeginSample("A")`. -/
theorem growthMarker_parent_is_opened_index_witness :
    (((Profiler.init 2).BeginSample "A" 0 1 2).SamplePool.get?
        ((Profiler.init 2).SampleCount + 1)).map Sample.Parent =
      some ((Profiler.init 2).SampleCount : Int) :=
  (growthMarker_parent_is_opened_index (Profiler.init 2) "A" 0 1 2
    (by decide)).1

/-- C4: `BeginSample` grows the pool exactly when, after appending the new
sample, fewer than 2 free slots remain (`SampleCount + 1 ≥ SampleCapacity`
with the incremented count, i.e. old count + 2 ≥ capacity).  Growth doubles
the capacity and appends exactly one synthetic growth-marker sample after
the opened sample; without growth the capacity is unchanged and only the
opened sample is appended. -/
theorem beginSample_growth_policy (p : Profiler) (name : String)
    (t tg1 tg2 : Nat) :
    (p.SampleCapacity ≤ p.SampleCount + 2 →
      (p.BeginSample name t tg1 tg2).SampleCapacity = p.SampleCapacity * 2 ∧
      (p.BeginSample name t tg1 tg2).SamplePool =
        p.SamplePool ++ [openedSample p name t, growthMarker p tg1 tg2]) ∧
    (p.SampleCount + 2 < p.SampleCapacity →
      (p.BeginSample name t tg1 tg2).SampleCapacity = p.SampleCapacity ∧
      (p.BeginSample name t tg1 tg2).SamplePool =
        p.SamplePool ++ [openedSample p name t]) := by
  constructor
  · intro h
    rw [BeginSample_grow_eq p name t tg1 tg2 h]
    exact ⟨rfl, rfl⟩
  · intro h
    rw [BeginSample_nogrow_eq p name t tg1 tg2 h]
    exact ⟨rfl, rfl⟩

/-- Witness for C4: growth at `Profiler(2)`, no growth at `Profiler(8)`. -/
theorem beginSample_growth_policy_witness :
    ((Profiler.init 2).BeginSample "A" 0 1 2).SampleCapacity =
        (Profiler.init 2).SampleCapacity * 2 ∧
      ((Profiler.init 8).BeginSample "A" 0 1 2).SampleCapacity =
        (Profiler.init 8).SampleCapacity :=
  ⟨((beginSample_growth_policy (Profiler.init 2) "A" 0 1 2).1 (by decide)).1,
   ((beginSample_growth_policy (Profiler.init 8) "A" 0 1 2).2 (by decide)).1⟩

/-- C5: a `BeginSample` call that triggers pool growth preserves every
previously recorded sample unchanged at its index; the only additions are
the opened (triggering) sample at the old `SampleCount` and the synthetic
growth-marker sample right after it. -/
theorem growth_preserves_samples (p : Profiler) (name : String)
    (t tg1 tg2 : Nat) (h : p.SampleCapacity ≤ p.SampleCount + 2) :
    (∀ i, i < p.SampleCount →
      (p.BeginSample name t tg1 tg2).SamplePool.get? i =
        p.SamplePool.get? i) ∧
    (p.BeginSample name t tg1 tg2).SampleCount = p.SampleCount + 2 ∧
    (p.BeginSample name t tg1 tg2).SamplePool.get? p.SampleCount =
      some (openedSample p name t) ∧
    (p.BeginSample name t tg1 tg2).SamplePool.get? (p.SampleCount + 1) =
      some (growthMarker p tg1 tg2) := by
  rw [BeginSample_grow_eq p name t tg1 tg2 h]
  refine ⟨fun i hi => List.get?_append hi, ?_, ?_, ?_⟩
  · simp [Profiler.SampleCount]
  · rw [List.get?_append_right (by simp [Profiler.SampleCount])]
    simp [Profiler.SampleCount]
  · rw [List.get?_append_right (by simp [Profiler.SampleCount])]
    simp [Profiler.SampleCount]

/-- Witness for C5 at `Profiler(2)`, `BeginSample("A")`. -/
theorem growth_preserves_samples_witness :
    ((Profiler.init 2).BeginSample "A" 0 1 2).SampleCount =
      (Profiler.init 2).SampleCount + 2 :=
  (growth_preserves_samples (Profiler.init 2) "A" 0 1 2 (by decide)).2.1

/-- C10: the growth branch of `BeginSample` never changes `CurrentSample`
(it stays the index of the opened sample either way), and the synthetic
growth-marker sample is appended already closed: both of its timestamps
are written at creation (`EndNanoseconds` is set, not left indeterminate). -/
theorem growth_branch_keeps_current_marker_closed (p : Profiler)
    (name : String) (t tg1 tg2 : Nat) :
    (p.BeginSample name t tg1 tg2).CurrentSample = (p.SampleCount : Int) ∧
    (p.SampleCapacity ≤ p.SampleCount + 2 →
      ((p.BeginSample name t tg1 tg2).SamplePool.get?
          (p.SampleCount + 1)).map Sample.EndNanoseconds = some (some tg2) ∧
      ((p.BeginSample name t tg1 tg2).SamplePool.get?
          (p.SampleCount + 1)).map Sample.BeginNanoseconds = some tg1) := by
  constructor
  · by_cases h : p.SampleCapacity ≤ p.SampleCount + 2
    · rw [BeginSample_grow_eq p name t tg1 tg2 h]
    · rw [BeginSample_nogrow_eq p name t tg1 tg2 (by omega)]
  · intro h
    rw [BeginSample_grow_eq p name t tg1 tg2 h]
    rw [List.get?_append_right (by simp [Profiler.SampleCount])]
    simp [Profiler.SampleCount, growthMarker]

/-- Witness for C10 at `Profiler(2)`, `BeginSample("A")`. -/
theorem growth_branch_keeps_current_marker_closed_witness :
    ((Profiler.init 2).BeginSample "A" 0 1 2).CurrentSample =
        ((Profiler.init 2).SampleCount : Int) ∧
      (((Profiler.init 2).BeginSample "A" 0 1 2).SamplePool.get?
          ((Profiler.init 2).SampleCount + 1)).map Sample.EndNanoseconds =
        some (some 2) :=
  ⟨(growth_branch_keeps_current_marker_closed (Profiler.init 2) "A" 0 1 2).1,
   ((growth_branch_keeps_current_marker_closed (Profiler.init 2) "A" 0 1 2).2
      (by decide)).1⟩

/-- C8: when a sample is open and at a valid index (`0 ≤ CurrentSample`
and the pool holds a sample `s` there), `EndSample` succeeds: it writes the
clock value into `EndNanoseconds` of the sample at index `CurrentSample`,
sets `CurrentSample` to that sample's `Parent`, and changes no other sample
and no other field.  When no sample is open (`CurrentSample = -1`), the
unchecked access `SamplePool[CurrentSample]` is out of bounds and the
modelled operation fails. -/
theorem endSample_spec (p : Profiler) (t : Nat) :
    (p.CurrentSample = -1 → p.EndSample t = none) ∧
    (∀ s, 0 ≤ p.CurrentSample →
      p.SamplePool.get? p.CurrentSample.toNat = some s →
      ∃ q, p.EndSample t = some q ∧
        q.CurrentSample = s.Parent ∧
        q.SamplePool.get? p.CurrentSample.toNat =
          some { s with EndNanoseconds := some t } ∧
        (∀ j, j ≠ p.CurrentSample.toNat →
          q.SamplePool.get? j = p.SamplePool.get? j) ∧
        q.SampleCapacity = p.SampleCapacity ∧
        q.SampleCount = p.SampleCount) := by
  constructor
  · intro h
    simp [Profiler.EndSample, h]
  · intro s hpos hs
    refine ⟨{ SamplePool := p.SamplePool.set p.CurrentSample.toNat
                { s with EndNanoseconds := some t }
              CurrentSample := s.Parent
              SampleCapacity := p.SampleCapacity }, ?_, rfl, ?_, ?_, rfl, ?_⟩
    · rw [Profiler.EndSample, if_neg (by omega), hs]
    · have hlt : p.CurrentSample.toNat < p.SamplePool.length :=
        List.get?_eq_some.mp hs |>.1
      simp [List.get?_set, hlt]
    · intro j hj
      simp [List.get?_set, hj, Ne.symm hj]
    · simp [Profiler.SampleCount]

/-- Witness for C8: the success case on a recorder with one open sample,
the failure case on a freshly constructed recorder. -/
theorem endSample_spec_witness :
    (Profiler.init 4).EndSample 7 = none ∧
      ∃ q, ((Profiler.init 4).BeginSample "A" 1 0 0).EndSample 7 = some q ∧
        q.CurrentSample = (openedSample (Profiler.init 4) "A" 1).Parent :=
  ⟨(endSample_spec (Profiler.init 4) 7).1 rfl,
   match (endSample_spec ((Profiler.init 4).BeginSample "A" 1 0 0) 7).2
       (openedSample (Profiler.init 4) "A" 1) (by decide) (by decide) with
   | ⟨q, h1, h2, _⟩ => ⟨q, h1, h2⟩⟩

/-! ## Export claims -/

lemma foldl_push_eq_map (l : List Sample) (acc : List ChromeTracingEvent) :
    l.foldl (fun a e => a ++ [chromeEvent e]) acc = acc ++ l.map chromeEvent := by
  induction l generalizing acc with
  | nil => simp
  | cons x xs ih => simp [List.foldl_cons, ih]

lemma toChromeTracingEventsAppend_eq (p : Profiler)
    (acc : List ChromeTracingEvent) :
    ToChromeTracingEventsAppend p acc = acc ++ p.SamplePool.map chromeEvent :=
  foldl_push_eq_map p.SamplePool acc

/-- C6: for every recorder state, the append variant of
`ToChromeTracingEvents` emits exactly `SampleCount` events, one per
recorded sample in pool order (index 0 up to `SampleCount - 1`), after the
caller-supplied prefix which it leaves unchanged; and the convenience
variant produces exactly the append variant applied to an empty vector. -/
theorem export_completeness (p : Profiler) (acc : List ChromeTracingEvent) :
    (ToChromeTracingEventsAppend p acc).length = acc.length + p.SampleCount ∧
    (ToChromeTracingEventsAppend p acc).take acc.length = acc ∧
    (∀ i, i < p.SampleCount →
      (ToChromeTracingEventsAppend p acc).get? (acc.length + i) =
        (p.SamplePool.get? i).map chromeEvent) ∧
    ToChromeTracingEvents p = ToChromeTracingEventsAppend p [] := by
  rw [toChromeTracingEventsAppend_eq]
  refine ⟨by simp [Profiler.SampleCount], by simp, fun i hi => ?_, rfl⟩
  rw [List.get?_append_right (Nat.le_add_right _ _)]
  simp [List.get?_map]

/-- Witness for C6 on a two-sample recorder and a one-event prefix. -/
theorem export_completeness_witness :
    (ToChromeTracingEventsAppend
        ((Profiler.init 4).BeginSample "A" 1 0 0) [chromeEvent (openedSample (Profiler.init 4) "B" 0)]).length =
      [chromeEvent (openedSample (Profiler.init 4) "B" 0)].length +
        ((Profiler.init 4).BeginSample "A" 1 0 0).SampleCount :=
  (export_completeness ((Profiler.init 4).BeginSample "A" 1 0 0)
    [chromeEvent (openedSample (Profiler.init 4) "B" 0)]).1

lemma u64sub_eq_sub (a b : Nat) (hba : b ≤ a) (ha : a < 2 ^ 64) :
    u64sub a b = a - b := by
  unfold u64sub
  rw [Nat.sub_add_comm hba, Nat.add_mod_right]
  exact Nat.mod_eq_of_lt (lt_of_le_of_lt (Nat.sub_le a b) ha)

/-- C7: the exported event of a recorded, closed sample has `pid = 1`,
`tid = 1`, phase `"X"`, the sample's name, `ts` equal to
`BeginNanoseconds / 1000` (exact division in `ℚ`, microseconds), `dur`
equal to `(EndNanoseconds - BeginNanoseconds) / 1000`, and `args.ms` equal
to `(EndNanoseconds - BeginNanoseconds) / 1000000` (milliseconds); the
`uint64_t` subtraction does not wrap because `begin ≤ end < 2^64`. -/
theorem export_event_fields (p : Profiler) (i : Nat) (e : Sample) (v : Nat)
    (hi : p.SamplePool.get? i = some e) (hv : e.EndNanoseconds = some v)
    (hbe : e.BeginNanoseconds ≤ v) (hlt : v < 2 ^ 64) :
    (ToChromeTracingEvents p).get? i =
      some { pid := 1
             tid := 1
             ts := (e.BeginNanoseconds : ℚ) / 1000
             dur := ((v - e.BeginNanoseconds : Nat) : ℚ) / 1000
             ph := "X"
             name := e.Name
             args_ms := ((v - e.BeginNanoseconds : Nat) : ℚ) / 1000000 } := by
  rw [ToChromeTracingEvents, toChromeTracingEventsAppend_eq, List.nil_append,
    List.get?_map, hi]
  simp [chromeEvent, hv, u64sub_eq_sub v e.BeginNanoseconds hbe hlt]

/-- Witness for C7 on a concrete closed sample. -/
theorem export_event_fields_witness :
    (ToChromeTracingEvents
        { SamplePool := [⟨-1, 1000, some 3000, "A"⟩]
          CurrentSample := -1
          SampleCapacity := 4 }).get? 0 =
      some { pid := 1, tid := 1, ts := 1, dur := 2, ph := "X", name := "A"
             args_ms := (2000 : ℚ) / 1000000 } := by
  have h := export_event_fields
    { SamplePool := [⟨-1, 1000, some 3000, "A"⟩]
      CurrentSample := -1
      SampleCapacity := 4 } 0 ⟨-1, 1000, some 3000, "A"⟩ 3000
    rfl rfl (by norm_num) (by norm_num)
  rw [h]
  norm_num

/-! ## Run-level claims -/

/-- C2 (balance invariant): for every well-nested sequence of
`BeginSample`/`EndSample` calls starting from a freshly constructed
recorder (every begin matched by a later end, in LIFO order), the run
succeeds and after the last `EndSample` the cursor `CurrentSample` is back
at the sentinel `-1`: no sample is open. -/
theorem wellNested_current_sentinel (cap : Int) (ops : List Op)
    (p : Profiler) (hwn : WellNested ops)
    (hrun : run (Profiler.init cap) ops = some p) :
    p.CurrentSample = -1 := by
  have hcs : ChainStack (parents (Profiler.init cap))
      (Profiler.init cap).CurrentSample [] := rfl
  obtain ⟨q, s', hq, h1, h2⟩ :=
    run_chainStack ops (Profiler.init cap) [] 0 hcs hwn
  rw [hrun] at hq
  obtain rfl := Option.some.inj hq
  obtain rfl := List.length_eq_zero.mp h2
  exact chainStack_nil _ _ h1

/-- Witness for C2: `Begin("A"); Begin("B"); End; End` from `Profiler(8)`
ends with the sentinel cursor. -/
theorem wellNested_current_sentinel_witness :
    ({ SamplePool := [{ Parent := -1, BeginNanoseconds := 1,
                        EndNanoseconds := some 4, Name := "A" },
                      { Parent := 0, BeginNanoseconds := 2,
                        EndNanoseconds := some 3, Name := "B" }],
       CurrentSample := -1,
       SampleCapacity := 8 } : Profiler).CurrentSample = -1 :=
  wellNested_current_sentinel 8
    [Op.beginS "A" 1 0 0, Op.beginS "B" 2 0 0, Op.endS 3, Op.endS 4] _
    (by decide) (by decide)

/-- C9: every state reachable from a freshly constructed recorder keeps at
least two free pool slots (`SampleCount + 2 ≤ SampleCapacity`, with the
constructor clamping the initial capacity to a minimum of 2), so the
unchecked writes of `BeginSample` are in bounds: the opened sample's index
`SampleCount` is below the old capacity and the growth marker's index
`SampleCount + 1` is below the doubled capacity. -/
theorem capacity_invariant (cap : Int) (ops : List Op) (p : Profiler)
    (hrun : run (Profiler.init cap) ops = some p) :
    p.SampleCount + 2 ≤ p.SampleCapacity ∧
    2 ≤ p.SampleCapacity ∧
    p.SampleCount < p.SampleCapacity ∧
    p.SampleCount + 1 < p.SampleCapacity * 2 := by
  have hinit : (Profiler.init cap).SampleCount + 2 ≤
      (Profiler.init cap).SampleCapacity := by
    simp only [Profiler.init, Profiler.SampleCount, List.length_nil]
    split <;> omega
  have h := run_capInv ops (Profiler.init cap) p hinit hrun
  exact ⟨h, by omega, by omega, by omega⟩

/-- C3 (parent-chain integrity): in any state reached by an instrumented
run from a freshly constructed recorder, every recorded sample has a ghost
creation-depth entry, and repeatedly following `Parent` links from any
recorded sample terminates at a top-level sample (one with `Parent = -1`)
in exactly that many steps — the sample's nesting depth at the moment it
was created (the number of samples open around it: the ghost stack height
at its `BeginSample`, one more for a synthetic growth marker, which is
created inside the sample just opened). -/
theorem parentChain_depth (cap : Int) (ops : List Op) (σ : IState)
    (hrun : irun (IState.init cap) ops = some σ) :
    σ.depths.length = σ.prof.SampleCount ∧
    ∀ i, i < σ.prof.SampleCount →
      chainSteps (parents σ.prof) σ.prof.SampleCount i = σ.depths[i]? := by
  have h0 : IInv (IState.init cap).prof (IState.init cap).stack
      (IState.init cap).depths := by
    refine ⟨rfl, ?_, rfl, ?_⟩
    · simp [IState.init, Profiler.init, Profiler.SampleCount]
    · intro i hi
      simp [IState.init, Profiler.init, Profiler.SampleCount] at hi
  have h := irun_iinv ops _ σ h0 hrun
  exact ⟨h.1, h.2.2.2⟩

/-- Witness for C3: `Profiler(2)`, one `BeginSample` (growing the pool,
depth 0 for the opened sample and 1 for the marker) and its `EndSample`;
the growth marker's parent chain has exactly 1 step. -/
theorem parentChain_depth_witness :
    chainSteps
      (parents
        ({ SamplePool := [{ Parent := -1, BeginNanoseconds := 0,
                            EndNanoseconds := some 3, Name := "A" },
                          { Parent := 0, BeginNanoseconds := 1,
                            EndNanoseconds := some 2, Name := reallocName }],
           CurrentSample := -1,
           SampleCapacity := 4 } : Profiler)) 2 1 =
      ([0, 1] : List Nat)[1]? :=
  (parentChain_depth 2 [Op.beginS "A" 0 1 2, Op.endS 3]
    { prof := { SamplePool := [{ Parent := -1, BeginNanoseconds := 0,
                                 EndNanoseconds := some 3, Name := "A" },
                               { Parent := 0, BeginNanoseconds := 1,
                                 EndNanoseconds := some 2, Name := reallocName }],
                CurrentSample := -1,
                SampleCapacity := 4 }
      stack := []
      depths := [0, 1] } (by decide)).2 1 (by decide)

/-- Witness for C9: the recorder constructed with capacity 0 (clamped
to 2) after one `BeginSample` (which grows the pool). -/
theorem capacity_invariant_witness :
    ({ SamplePool := [{ Parent := -1, BeginNanoseconds := 1,
                        EndNanoseconds := none, Name := "A" },
                      { Parent := 0, BeginNanoseconds := 2,
                        EndNanoseconds := some 3, Name := reallocName }],
       CurrentSample := 0,
       SampleCapacity := 4 } : Profiler).SampleCount + 2 ≤
      ({ SamplePool := [{ Parent := -1, BeginNanoseconds := 1,
                          EndNanoseconds := none, Name := "A" },
                        { Parent := 0, BeginNanoseconds := 2,
                          EndNanoseconds := some 3, Name := reallocName }],
         CurrentSample := 0,
         SampleCapacity := 4 } : Profiler).SampleCapacity :=
  (capacity_invariant 0 [Op.beginS "A" 1 2 3] _ (by decide)).1

end SCGP
